import Mathlib

/-!
Verification of the RackPower-Architect core (`src/utils/csvParser.ts`).

The file embeds `parseCSV` and its helpers as executable Lean functions.
Text is modelled as `List Char`; JavaScript floating-point numbers are
modelled as rationals (`ℚ`); JavaScript `Map` (which preserves insertion
order) is modelled as an insertion-ordered association list.
-/

set_option autoImplicit false

namespace RackPower

/-- Whitespace trim at both ends of a character list, modelling JS `String.trim`. -/
def trimL (l : List Char) : List Char :=
  (((l.dropWhile Char.isWhitespace).reverse).dropWhile Char.isWhitespace).reverse

/-- Lower-casing of a character list, modelling JS `String.toLowerCase` for ASCII. -/
def lowerL (l : List Char) : List Char := l.map Char.toLower

/-- Test whether `k` occurs at the head of `h`, character by character. -/
def startsWithL : List Char → List Char → Bool
  | [], _ => true
  | _ :: _, [] => false
  | k :: ks, h :: hs => k == h && startsWithL ks hs

/-- Substring containment test, modelling JS `String.includes`. -/
def containsL (key : List Char) : List Char → Bool
  | [] => startsWithL key []
  | h :: hs => startsWithL key (h :: hs) || containsL key hs

/-- Split accumulator for `splitOnChar`; `acc` holds the current segment reversed. -/
def splitOnAux (c : Char) : List Char → List Char → List (List Char)
  | [], acc => [acc.reverse]
  | x :: xs, acc => if x = c then acc.reverse :: splitOnAux c xs [] else splitOnAux c xs (x :: acc)

/-- Split a character list on a separator character, modelling JS `String.split`. -/
def splitOnChar (c : Char) (l : List Char) : List (List Char) := splitOnAux c l []

/-- Remove a trailing quote character if one stands at the end. -/
def stripTrailingQuote (l : List Char) : List Char :=
  if l.getLast? = some '\"' then l.dropLast else l

/-- Removal of one leading and one trailing quote character, modelling the
source's `replace(/^"|"$/g, '')`. -/
def stripQuotes (l : List Char) : List Char :=
  stripTrailingQuote (match l with
    | '\"' :: rest => rest
    | l => l)

/-- Replacement of every maximal whitespace run by a single dash, modelling the
source's `replace(/\s+/g, '-')` in the id template.  The flag records whether
the previous character was whitespace. -/
def squash : Bool → List Char → List Char
  | _, [] => []
  | prev, c :: cs =>
    if c.isWhitespace then
      if prev then squash true cs else '-' :: squash true cs
    else c :: squash false cs

/-- Fuel-driven decimal digit expansion; the fuel never runs out when it starts
at the number itself. -/
def natReprAux : Nat → Nat → List Char
  | 0, n => [Nat.digitChar (n % 10)]
  | fuel + 1, n =>
    if n < 10 then [Nat.digitChar n]
    else natReprAux fuel (n / 10) ++ [Nat.digitChar (n % 10)]

/-- Decimal representation of a natural number, modelling JS number-to-string
conversion inside a template literal. -/
def natRepr (n : Nat) : List Char := natReprAux n n

/-- Numeric value of a decimal digit character. -/
def digitVal (c : Char) : Nat := c.toNat - 48

/-- Value of a list of decimal digit characters read most-significant first. -/
def digitsVal (ds : List Char) : Nat := ds.foldl (fun a c => 10 * a + digitVal c) 0

/-- Body of the integer parser: maximal digit run after the optional sign. -/
def jsParseIntAux (sign : Int) (rest : List Char) : Option Int :=
  let ds := rest.takeWhile Char.isDigit
  if ds = [] then none else some (sign * (digitsVal ds : Int))

/-- Model of the JS builtin `parseInt` restricted to plain decimal notation:
leading whitespace is skipped, an optional sign is read, then a maximal run of
digits; `none` models `NaN`.  (Hexadecimal auto-detection is not modelled.) -/
def jsParseInt (l : List Char) : Option Int :=
  match l.dropWhile Char.isWhitespace with
  | '-' :: r => jsParseIntAux (-1) r
  | '+' :: r => jsParseIntAux 1 r
  | r => jsParseIntAux 1 r

/-- Body of the float parser: integer digits, then an optional fraction. -/
def jsParseFloatAux (sign : ℚ) (rest : List Char) : Option ℚ :=
  let ds := rest.takeWhile Char.isDigit
  let rest2 := rest.dropWhile Char.isDigit
  let fs := match rest2 with
    | '.' :: r2 => r2.takeWhile Char.isDigit
    | _ => []
  if ds = [] ∧ fs = [] then none
  else some (sign * ((digitsVal ds : ℚ) + (digitsVal fs : ℚ) / ((10 : ℚ) ^ fs.length)))

/-- Model of the JS builtin `parseFloat` restricted to plain decimal notation:
leading whitespace, optional sign, digits, optional dot and fraction digits;
`none` models `NaN`.  (Exponent notation is not modelled.) -/
def jsParseFloat (l : List Char) : Option ℚ :=
  match l.dropWhile Char.isWhitespace with
  | '-' :: r => jsParseFloatAux (-1) r
  | '+' :: r => jsParseFloatAux 1 r
  | r => jsParseFloatAux 1 r

/-- Equipment record produced by the importer (`Device` in `src/types`).
`psuConnections` only ever holds `null` entries in the core, so it is modelled
by the number of initialized slots (0 for an empty mapping). -/
structure Device where
  id : List Char
  name : List Char
  room : List Char
  psuCount : Nat
  typicalPower : ℚ
  powerRatingPerDevice : ℚ
  connectionType : List Char
  uHeight : Nat
  uPosition : Option Int
  psuConnections : Nat
deriving DecidableEq

/-- Per-room output of `parseCSV` (`RackGroup` in `src/types`). -/
structure RackGroup where
  roomId : List Char
  devices : List Device
  totalPower : ℚ
deriving DecidableEq

/-- Resolved column indices; `none` models the source's `-1`. -/
structure Cols where
  idxRoom : Option Nat
  idxDevice : Option Nat
  idxRackU : Option Nat
  idxQty : Option Nat
  idxPSCount : Option Nat
  idxMaxPowerPerDevice : Option Nat
  idxTypicalPower : Option Nat
  idxTotalMaxPower : Option Nat
  idxConnType : Option Nat
  idxPSURating : Option Nat
deriving DecidableEq

/-- Index of the first list element satisfying a test, modelling `findIndex`. -/
def findIdxL (p : List Char → Bool) : List (List Char) → Option Nat
  | [] => none
  | h :: t => if p h then some 0 else (findIdxL p t).map (· + 1)

/-- Keyword match of the source's `getColIndex`: the first header that
case-insensitively contains one of the keywords. -/
def getCol (headers : List (List Char)) (keys : List (List Char)) : Option Nat :=
  findIdxL (fun h => keys.any (fun k => containsL (lowerL k) (lowerL h))) headers

def roomKeys : List (List Char) := ["Room".data, "Location".data, "Rack Name".data]

def deviceKeys : List (List Char) := ["Device".data, "Model".data, "Equipment".data]

def rackUKeys : List (List Char) :=
  ["Rack Size".data, "Size (U)".data, "U Height".data, "Height".data]

def qtyKeys : List (List Char) :=
  ["Total No. of Device".data, "Quantity".data, "Qty".data, "Count".data, "No. of Devices".data]

def psCountKeys : List (List Char) :=
  ["Total No. of PS".data, "PSU Count".data, "Power Supplies".data]

def maxPowerKeys : List (List Char) :=
  ["Max Power (Watt)".data, "Max Power".data, "Power (W)".data]

def typicalPowerKeys : List (List Char) := ["Typical Power".data, "Typical Load".data]

def totalMaxPowerKeys : List (List Char) :=
  ["Total Max Power Consumption".data, "Total Power".data]

def connTypeKeys : List (List Char) := ["Connection Type".data, "Plug Type".data, "Socket".data]

def psuRatingKeys : List (List Char) :=
  ["PSU Rating".data, "PSU W".data, "Power Supply Rating".data]

/-- Column resolution performed once on the header row (source lines 31-40). -/
def resolveCols (headers : List (List Char)) : Cols :=
  ⟨getCol headers roomKeys, getCol headers deviceKeys, getCol headers rackUKeys,
   getCol headers qtyKeys, getCol headers psCountKeys, getCol headers maxPowerKeys,
   getCol headers typicalPowerKeys, getCol headers totalMaxPowerKeys,
   getCol headers connTypeKeys, getCol headers psuRatingKeys⟩

/-- Field-splitting loop of the source's `parseLine`: a quote toggles the
in-quotes state (and is not added to the cell), an unquoted comma closes the
current cell, every other character is appended; cells are trimmed when pushed. -/
def parseLineAux : List Char → Bool → List Char → List (List Char)
  | [], _, cell => [trimL cell]
  | c :: cs, inQ, cell =>
    if c = '\"' then parseLineAux cs (!inQ) cell
    else if c = ',' ∧ inQ = false then trimL cell :: parseLineAux cs inQ []
    else parseLineAux cs inQ (cell ++ [c])

/-- The source's `parseLine` (lines 9-23). -/
def parseLine (text : List Char) : List (List Char) := parseLineAux text false []

/-- Row-skip test of source line 47: `row.length < headers.length * 0.5 && row.length < 2`. -/
def skipRow (hdrLen rowLen : Nat) : Bool :=
  decide (2 * rowLen < hdrLen) && decide (rowLen < 2)

/-- Fill-down room logic of source lines 50-61: returns the row's room and the
new last-seen room. -/
def rowRoom (idxRoom : Option Nat) (row : List (List Char)) (lastRoom : List Char) :
    List Char × List Char :=
  match idxRoom with
  | none => ("Default Room".data, lastRoom)
  | some j =>
    let val := row.getD j []
    if val ≠ [] ∧ trimL (stripQuotes val) ≠ [] then
      (trimL (stripQuotes val), trimL (stripQuotes val))
    else (lastRoom, lastRoom)

/-- Quote-stripped cell with a default for an absent column, missing cell or
empty value (source lines 63 and 102). -/
def rowStrField (idx : Option Nat) (row : List (List Char)) (dflt : List Char) : List Char :=
  match idx with
  | none => dflt
  | some j =>
    let v := stripQuotes (row.getD j [])
    if v = [] then dflt else v

/-- Quantity parsing of source lines 66-70: positive parsed integer, else 1. -/
def rowQty (idxQty : Option Nat) (row : List (List Char)) : Nat :=
  match idxQty with
  | none => 1
  | some j =>
    match jsParseInt (row.getD j []) with
    | none => 1
    | some p => if 0 < p then p.toNat else 1

/-- PSU-total parsing of source lines 73-77: positive parsed integer, else the
row's quantity. -/
def rowPSTotal (idxPSCount : Option Nat) (row : List (List Char)) (qty : Nat) : Nat :=
  match idxPSCount with
  | none => qty
  | some j =>
    match jsParseInt (row.getD j []) with
    | none => qty
    | some p => if 0 < p then p.toNat else qty

/-- U-height parsing of source lines 81-87: positive parsed integer, else 1. -/
def rowHeight (idxRackU : Option Nat) (row : List (List Char)) : Nat :=
  match idxRackU with
  | none => 1
  | some j =>
    match jsParseInt (row.getD j []) with
    | none => 1
    | some p => if 0 < p then p.toNat else 1

/-- Parsed float of the cell under an optionally resolved column (source
lines 91-93); `none` models `NaN`. -/
def rawFloatAt (idx : Option Nat) (row : List (List Char)) : Option ℚ :=
  match idx with
  | none => none
  | some j => jsParseFloat (row.getD j [])

/-- Whether an optional parsed number is present and strictly positive. -/
def isPos (o : Option ℚ) : Bool :=
  match o with
  | some v => decide (0 < v)
  | none => false

/-- Max-power derivation of source lines 90-97, in priority order: positive
per-device value; else positive total divided by quantity; else any parsed
PSU rating times the per-unit PSU count; else 0. -/
def rowMaxPower (rawMax rawTotal rawRating : Option ℚ) (qty psPer : Nat) : ℚ :=
  if isPos rawMax then rawMax.getD 0
  else if isPos rawTotal then rawTotal.getD 0 / (qty : ℚ)
  else
    match rawRating with
    | some r => r * (psPer : ℚ)
    | none => 0

/-- Typical-power derivation of source lines 99-100; the literal `0.6` is the
rational 3/5 in this model. -/
def rowTypical (rawTyp : Option ℚ) (maxPower : ℚ) : ℚ :=
  match rawTyp with
  | some v => v
  | none => maxPower * (3 / 5 : ℚ)

/-- Replica id of source line 106: the template
`room-name-rowIndex-replicaIndex` with every whitespace run replaced by a dash. -/
def mkId (room name : List Char) (i k : Nat) : List Char :=
  squash false (room ++ '-' :: name ++ '-' :: natRepr i ++ '-' :: natRepr k)

/-- Replication loop of source lines 104-116: one record per replica index,
identical in every field except the id. -/
def mkDevices (room name : List Char) (i qty psPer : Nat) (tp mp : ℚ)
    (ct : List Char) (uh : Nat) : List Device :=
  (List.range qty).map (fun k =>
    ⟨mkId room name i k, name, room, psPer, tp, mp, ct, uh, none, 0⟩)

/-- Insertion-ordered association list standing for the source's `racksMap`. -/
def RackMap : Type := List (List Char × List Device)

/-- Append a device to its room's bucket, creating the bucket at the end of the
map when the room is new (source lines 118-119; JS `Map` preserves insertion
order). -/
def pushDevice : List (List Char × List Device) → List Char → Device →
    List (List Char × List Device)
  | [], r, d => [(r, [d])]
  | (key, ds) :: rest, r, d =>
    if key = r then (key, ds ++ [d]) :: rest else (key, ds) :: pushDevice rest r d

/-- Push a batch of devices for one room in order. -/
def pushAll (m : List (List Char × List Device)) (r : List Char) (ds : List Device) :
    List (List Char × List Device) :=
  ds.foldl (fun acc d => pushDevice acc r d) m

/-- Row-processing loop of source lines 45-121, threading the row index, the
last-seen room and the room map. -/
def buildRows (hdrLen : Nat) (cols : Cols) :
    Nat → List Char → List (List Char × List Device) → List (List Char) →
    List (List Char × List Device)
  | _, _, m, [] => m
  | i, lastRoom, m, line :: rest =>
    let row := parseLine line
    if skipRow hdrLen row.length then buildRows hdrLen cols (i + 1) lastRoom m rest
    else
      let rp := rowRoom cols.idxRoom row lastRoom
      let deviceName := rowStrField cols.idxDevice row ("Unknown Device".data)
      let qty := rowQty cols.idxQty row
      let psPer := Nat.max 1 (rowPSTotal cols.idxPSCount row qty / qty)
      let uh := rowHeight cols.idxRackU row
      let mp := rowMaxPower (rawFloatAt cols.idxMaxPowerPerDevice row)
        (rawFloatAt cols.idxTotalMaxPower row) (rawFloatAt cols.idxPSURating row) qty psPer
      let tp := rowTypical (rawFloatAt cols.idxTypicalPower row) mp
      let ct := rowStrField cols.idxConnType row ("C13".data)
      buildRows hdrLen cols (i + 1) rp.2
        (pushAll m rp.1 (mkDevices rp.1 deviceName i qty psPer tp mp ct uh)) rest

/-- Top-down stacking loop of source lines 128-148: place at the cursor when
the span stays at or above U1 and advance the cursor, otherwise leave the
device unplaced and the cursor unchanged. -/
def stackLoop : Int → List Device → List Device
  | _, [] => []
  | cursor, d :: ds =>
    if 1 ≤ cursor - (d.uHeight : Int) + 1 then
      { d with uPosition := some cursor, psuConnections := d.psuCount }
        :: stackLoop (cursor - (d.uHeight : Int)) ds
    else
      { d with uPosition := none, psuConnections := 0 } :: stackLoop cursor ds

/-- Per-room allocation of source lines 124-151: stack from U48 downward and
sum every device's per-unit max power. -/
def allocRoom (e : List Char × List Device) : RackGroup :=
  let pd := stackLoop 48 e.2
  ⟨e.1, pd, (pd.map (fun d => d.powerRatingPerDevice)).sum⟩

/-- Lines of the input: trim, then split on newline (source line 5). -/
def linesOf (text : List Char) : List (List Char) := splitOnChar '\n' (trimL text)

/-- Cleaned header row of source line 25. -/
def headersOf (text : List Char) : List (List Char) :=
  (parseLine ((linesOf text).headD [])).map (fun h => trimL (stripQuotes h))

/-- The source's `parseCSV` (lines 4-155). -/
def parseCSV (text : List Char) : List RackGroup :=
  if (linesOf text).length < 2 then []
  else
    (buildRows (headersOf text).length (resolveCols (headersOf text)) 1
      ("Default Room".data) [] ((linesOf text).drop 1)).map allocRoom

/-- Ids of every device in a room map, bucket by bucket. -/
def idsOfMap : List (List Char × List Device) → List (List Char)
  | [] => []
  | (_, ds) :: rest => ds.map (fun d => d.id) ++ idsOfMap rest

/-- Ids of every device in the final output, group by group. -/
def outIds : List RackGroup → List (List Char)
  | [] => []
  | g :: gs => g.devices.map (fun d => d.id) ++ outIds gs

/-- Raw comma-split of a line respecting quoted spans, keeping every character
of each segment (the split the spec's field-cleaning sentence describes). -/
def rawFieldsAux : List Char → Bool → List Char → List (List Char)
  | [], _, cell => [cell]
  | c :: cs, inQ, cell =>
    if c = '\"' then rawFieldsAux cs (!inQ) (cell ++ [c])
    else if c = ',' ∧ inQ = false then cell :: rawFieldsAux cs inQ []
    else rawFieldsAux cs inQ (cell ++ [c])

/-- Raw quoted-span-aware segments of a line. -/
def rawFields (text : List Char) : List (List Char) := rawFieldsAux text false []

/-- Modelled from the spec: the claim's described cleaning, whitespace trim
followed by removal of exactly one enclosing pair of quote characters, with no
other character of the field altered or removed. -/
def claimFields (text : List Char) : List (List Char) :=
  (rawFields text).map (fun f => stripQuotes (trimL f))

/-- Cleaned cell of a row under a fixed room-column index. -/
def cleanCell (j : Nat) (row : List (List Char)) : List Char :=
  trimL (stripQuotes (row.getD j []))

/-- Rooms assigned to a list of processed rows in order, threading the
last-seen room through `rowRoom`. -/
def roomTrace (idxRoom : Option Nat) : List Char → List (List (List Char)) → List (List Char)
  | _, [] => []
  | last, row :: rest =>
    (rowRoom idxRoom row last).1 :: roomTrace idxRoom (rowRoom idxRoom row last).2 rest

/-- Parsed data rows that survive the skip rule. -/
def processedRows (hdrLen : Nat) (ls : List (List Char)) : List (List (List Char)) :=
  (ls.map parseLine).filter (fun row => !(skipRow hdrLen row.length))

/-- Append a key at the end when it is not yet present. -/
def addIfNew (ks : List (List Char)) (r : List Char) : List (List Char) :=
  if r ∈ ks then ks else ks ++ [r]

/-- First-seen-order deduplication of a list of room names. -/
def firstSeen (rs : List (List Char)) : List (List Char) := rs.foldl addIfNew []

/-- Modelled from the spec: the nearest non-empty value in a list of cleaned
room cells, falling back to the given label (the fill-down description). -/
def lastFilled (dflt : List Char) : List (List Char) → List Char
  | [] => dflt
  | c :: cs => lastFilled (if c = [] then dflt else c) cs

/-- Sample device of a given height used to state the capacity-6 stacking
example. -/
def sampleDevice (h : Nat) : Device :=
  ⟨[], [], [], 1, 0, 0, [], h, none, 0⟩

theorem squash_noWS : ∀ (l : List Char) (p : Bool),
    (∀ c ∈ l, c.isWhitespace = false) → squash p l = l := by
  intro l
  induction l with
  | nil => intro p _; rfl
  | cons c cs ih =>
    intro p h
    have hc : c.isWhitespace = false := h c (by simp)
    have hcs : ∀ x ∈ cs, x.isWhitespace = false := fun x hx => h x (by simp [hx])
    simp [squash, hc, ih false hcs]

theorem squash_append_noWS : ∀ (a : List Char) (p : Bool) (b : List Char),
    (∀ c ∈ b, c.isWhitespace = false) → squash p (a ++ b) = squash p a ++ b := by
  intro a
  induction a with
  | nil => intro p b h; simpa [squash] using squash_noWS b p h
  | cons c cs ih =>
    intro p b h
    by_cases hc : c.isWhitespace = true
    · cases p <;> simp [squash, hc, ih true b h]
    · rw [Bool.not_eq_true] at hc
      simp [squash, hc, ih false b h]

theorem digitChar_isDigit (d : Nat) (h : d < 10) : (Nat.digitChar d).isDigit = true := by
  interval_cases d <;> decide

theorem digitVal_digitChar (d : Nat) (h : d < 10) : digitVal (Nat.digitChar d) = d := by
  interval_cases d <;> decide

theorem isDigit_not_ws (c : Char) (h : c.isDigit = true) : c.isWhitespace = false := by
  by_contra hw
  rw [Bool.not_eq_false] at hw
  simp only [Char.isWhitespace, Bool.or_eq_true, decide_eq_true_eq] at hw
  rcases hw with ((h1 | h1) | h1) | h1 <;> (subst h1; exact absurd h (by decide))

theorem digit_ne_dash (c : Char) (h : c.isDigit = true) : c ≠ '-' := by
  intro e
  subst e
  exact absurd h (by decide)

theorem natReprAux_digits : ∀ (fuel n : Nat), ∀ c ∈ natReprAux fuel n, c.isDigit = true := by
  intro fuel
  induction fuel with
  | zero =>
    intro n c hc
    simp only [natReprAux, List.mem_singleton] at hc
    subst hc
    exact digitChar_isDigit _ (Nat.mod_lt _ (by omega))
  | succ fuel ih =>
    intro n c hc
    simp only [natReprAux] at hc
    split at hc
    next h =>
      simp only [List.mem_singleton] at hc
      subst hc
      exact digitChar_isDigit n h
    next h =>
      rcases List.mem_append.mp hc with hc | hc
      · exact ih _ c hc
      · simp only [List.mem_singleton] at hc
        subst hc
        exact digitChar_isDigit _ (Nat.mod_lt _ (by omega))

theorem natRepr_digits (n : Nat) : ∀ c ∈ natRepr n, c.isDigit = true :=
  natReprAux_digits n n

theorem digitsVal_natReprAux : ∀ (fuel n : Nat), n ≤ fuel →
    digitsVal (natReprAux fuel n) = n := by
  intro fuel
  induction fuel with
  | zero =>
    intro n hn
    have hz : n = 0 := by omega
    subst hz
    decide
  | succ fuel ih =>
    intro n hn
    simp only [natReprAux]
    split
    next h => simp [digitsVal, digitVal_digitChar n h]
    next h =>
      have hlt : n / 10 < n := Nat.div_lt_self (by omega) (by omega)
      have happ : digitsVal (natReprAux fuel (n / 10) ++ [Nat.digitChar (n % 10)])
          = 10 * digitsVal (natReprAux fuel (n / 10)) + digitVal (Nat.digitChar (n % 10)) := by
        simp [digitsVal, List.foldl_append]
      rw [happ, ih _ (by omega), digitVal_digitChar _ (Nat.mod_lt _ (by omega))]
      omega

theorem digitsVal_natRepr (n : Nat) : digitsVal (natRepr n) = n :=
  digitsVal_natReprAux n n (Nat.le_refl n)

theorem natRepr_inj {a b : Nat} (h : natRepr a = natRepr b) : a = b := by
  rw [← digitsVal_natRepr a, ← digitsVal_natRepr b, h]

theorem splitLastToken : ∀ (xs1 xs2 ys1 ys2 : List Char),
    '-' ∉ xs1 → '-' ∉ xs2 → xs1 ++ '-' :: ys1 = xs2 ++ '-' :: ys2 →
    xs1 = xs2 ∧ ys1 = ys2 := by
  intro xs1
  induction xs1 with
  | nil =>
    intro xs2 ys1 ys2 _ h2 heq
    cases xs2 with
    | nil => simpa using heq
    | cons x t =>
      simp only [List.nil_append, List.cons_append, List.cons.injEq] at heq
      exact absurd (heq.1 ▸ List.mem_cons_self x t) h2
  | cons x1 t1 ih =>
    intro xs2 ys1 ys2 h1 h2 heq
    cases xs2 with
    | nil =>
      simp only [List.nil_append, List.cons_append, List.cons.injEq] at heq
      exact absurd (heq.1 ▸ List.mem_cons_self x1 t1) h1
    | cons x2 t2 =>
      simp only [List.cons_append, List.cons.injEq] at heq
      obtain ⟨hx, ht⟩ := heq
      obtain ⟨ha, hb⟩ := ih t2 ys1 ys2 (fun hm => h1 (List.mem_cons_of_mem _ hm))
        (fun hm => h2 (List.mem_cons_of_mem _ hm)) ht
      exact ⟨by rw [hx, ha], hb⟩

theorem mkId_decomp (r n : List Char) (i k : Nat) :
    mkId r n i k = squash false (r ++ '-' :: n) ++ ('-' :: (natRepr i ++ '-' :: natRepr k)) := by
  have noWS : ∀ c ∈ '-' :: (natRepr i ++ '-' :: natRepr k), c.isWhitespace = false := by
    intro c hc
    rcases List.mem_cons.mp hc with rfl | hc
    · decide
    · rcases List.mem_append.mp hc with hc | hc
      · exact isDigit_not_ws c (natRepr_digits i c hc)
      · rcases List.mem_cons.mp hc with rfl | hc
        · decide
        · exact isDigit_not_ws c (natRepr_digits k c hc)
  rw [mkId]
  rw [show r ++ '-' :: n ++ '-' :: natRepr i ++ '-' :: natRepr k
      = (r ++ '-' :: n) ++ ('-' :: (natRepr i ++ '-' :: natRepr k)) by simp]
  exact squash_append_noWS _ false _ noWS

theorem natRepr_reverse_no_dash (k : Nat) : '-' ∉ (natRepr k).reverse := by
  intro hm
  rw [List.mem_reverse] at hm
  exact digit_ne_dash '-' (natRepr_digits k '-' hm) rfl

theorem mkId_inj {r1 n1 r2 n2 : List Char} {i1 k1 i2 k2 : Nat}
    (h : mkId r1 n1 i1 k1 = mkId r2 n2 i2 k2) : i1 = i2 ∧ k1 = k2 := by
  rw [mkId_decomp, mkId_decomp] at h
  have h' := congrArg List.reverse h
  simp only [List.reverse_append, List.reverse_cons, List.append_assoc,
    List.singleton_append, List.nil_append] at h'
  obtain ⟨hK, hrest⟩ := splitLastToken _ _ _ _ (natRepr_reverse_no_dash k1)
    (natRepr_reverse_no_dash k2) h'
  obtain ⟨hI, _⟩ := splitLastToken _ _ _ _ (natRepr_reverse_no_dash i1)
    (natRepr_reverse_no_dash i2) hrest
  exact ⟨natRepr_inj (List.reverse_injective hI), natRepr_inj (List.reverse_injective hK)⟩

theorem pushDevice_ids_perm (m : List (List Char × List Device)) (r : List Char) (d : Device) :
    (idsOfMap (pushDevice m r d)).Perm (idsOfMap m ++ [d.id]) := by
  induction m with
  | nil => simp [pushDevice, idsOfMap]
  | cons e rest ih =>
    obtain ⟨key, ds⟩ := e
    by_cases hk : key = r
    · simp only [pushDevice, if_pos hk, idsOfMap, List.map_append, List.map_cons,
        List.map_nil, List.append_assoc]
      exact List.Perm.append_left _ List.perm_append_comm
    · simp only [pushDevice, if_neg hk, idsOfMap, List.append_assoc]
      exact List.Perm.append_left _ ih

theorem pushAll_ids_perm (ds : List Device) :
    ∀ (m : List (List Char × List Device)) (r : List Char),
      (idsOfMap (pushAll m r ds)).Perm (idsOfMap m ++ ds.map (fun d => d.id)) := by
  induction ds with
  | nil => intro m r; simp [pushAll]
  | cons d ds ih =>
    intro m r
    have hfold : pushAll m r (d :: ds) = pushAll (pushDevice m r d) r ds := rfl
    rw [hfold]
    refine (ih _ r).trans ?_
    refine ((pushDevice_ids_perm m r d).append_right _).trans ?_
    simp [List.append_assoc]

theorem mkDevices_ids (room name : List Char) (i qty psPer : Nat) (tp mp : ℚ)
    (ct : List Char) (uh : Nat) :
    (mkDevices room name i qty psPer tp mp ct uh).map (fun d => d.id)
      = (List.range qty).map (fun k => mkId room name i k) := by
  simp [mkDevices, List.map_map, Function.comp]

theorem rowQty_pos (idx : Option Nat) (row : List (List Char)) : 1 ≤ rowQty idx row := by
  cases idx with
  | none => simp [rowQty]
  | some j =>
    simp only [rowQty]
    cases jsParseInt (row.getD j []) with
    | none => simp
    | some p =>
      by_cases hp : 0 < p
      · simp only [if_pos hp]
        omega
      · simp [if_neg hp]

theorem step_inv (m : List (List Char × List Device)) (i : Nat) (room name : List Char)
    (qty psPer : Nat) (tp mp : ℚ) (ct : List Char) (uh : Nat)
    (h1 : (idsOfMap m).Nodup)
    (h2 : ∀ s ∈ idsOfMap m, ∃ r n i' k, i' < i ∧ s = mkId r n i' k) :
    (idsOfMap (pushAll m room (mkDevices room name i qty psPer tp mp ct uh))).Nodup
    ∧ (∀ s ∈ idsOfMap (pushAll m room (mkDevices room name i qty psPer tp mp ct uh)),
        ∃ r n i' k, i' < i + 1 ∧ s = mkId r n i' k) := by
  have hperm := pushAll_ids_perm (mkDevices room name i qty psPer tp mp ct uh) m room
  rw [mkDevices_ids] at hperm
  have hnodupNew : ((List.range qty).map (fun k => mkId room name i k)).Nodup := by
    refine List.Nodup.map ?_ (List.nodup_range qty)
    intro a b hab
    exact (mkId_inj hab).2
  have hdisj : List.Disjoint (idsOfMap m)
      ((List.range qty).map (fun k => mkId room name i k)) := by
    intro s hsm hsn
    obtain ⟨r, n, i', k, hi, he⟩ := h2 s hsm
    obtain ⟨k2, _, heq⟩ := List.mem_map.mp hsn
    have := mkId_inj (heq.trans he)
    omega
  have hnodup : (idsOfMap m ++ (List.range qty).map (fun k => mkId room name i k)).Nodup :=
    List.Nodup.append h1 hnodupNew hdisj
  refine ⟨hperm.nodup_iff.mpr hnodup, ?_⟩
  intro s hs
  rcases List.mem_append.mp (hperm.mem_iff.mp hs) with hs' | hs'
  · obtain ⟨r, n, i', k, hi, he⟩ := h2 s hs'
    exact ⟨r, n, i', k, by omega, he⟩
  · obtain ⟨k2, _, heq⟩ := List.mem_map.mp hs'
    exact ⟨room, name, i, k2, by omega, heq.symm⟩

theorem buildRows_ids_nodup (hdrLen : Nat) (cols : Cols) :
    ∀ (ls : List (List Char)) (i : Nat) (last : List Char)
      (m : List (List Char × List Device)),
      (idsOfMap m).Nodup →
      (∀ s ∈ idsOfMap m, ∃ r n i' k, i' < i ∧ s = mkId r n i' k) →
      (idsOfMap (buildRows hdrLen cols i last m ls)).Nodup := by
  intro ls
  induction ls with
  | nil => intro i last m h1 _; exact h1
  | cons line rest ih =>
    intro i last m h1 h2
    simp only [buildRows]
    by_cases hskip : skipRow hdrLen (parseLine line).length = true
    · rw [if_pos hskip]
      refine ih (i + 1) last m h1 ?_
      intro s hs
      obtain ⟨r, n, i', k, hi, he⟩ := h2 s hs
      exact ⟨r, n, i', k, by omega, he⟩
    · rw [if_neg hskip]
      exact ih (i + 1) _ _ (step_inv _ _ _ _ _ _ _ _ _ _ h1 h2).1
        (step_inv _ _ _ _ _ _ _ _ _ _ h1 h2).2

theorem stackLoop_ids : ∀ (c : Int) (ds : List Device),
    (stackLoop c ds).map (fun d => d.id) = ds.map (fun d => d.id) := by
  intro c ds
  induction ds generalizing c with
  | nil => rfl
  | cons d ds ih =>
    rw [stackLoop]
    by_cases hc : 1 ≤ c - (d.uHeight : Int) + 1
    · rw [if_pos hc]
      simp [ih]
    · rw [if_neg hc]
      simp [ih]

theorem outIds_map_alloc : ∀ (m : List (List Char × List Device)),
    outIds (m.map allocRoom) = idsOfMap m := by
  intro m
  induction m with
  | nil => rfl
  | cons e rest ih =>
    obtain ⟨key, ds⟩ := e
    simp [outIds, idsOfMap, allocRoom, stackLoop_ids, ih]

theorem parseCSV_ids_nodup (text : List Char) : (outIds (parseCSV text)).Nodup := by
  rw [parseCSV]
  by_cases hlen : (linesOf text).length < 2
  · rw [if_pos hlen]
    simp [outIds]
  · rw [if_neg hlen]
    rw [outIds_map_alloc]
    refine buildRows_ids_nodup _ _ _ 1 _ [] ?_ ?_
    · simp [idsOfMap]
    · intro s hs
      simp [idsOfMap] at hs

/-- C1: a row with resolved quantity Q yields exactly Q records, identical in
every derived field except the id, whose id is the deterministic function
`mkId` of room, name, source-row index and replica index; and across the
whole import all produced ids are pairwise distinct. -/
theorem c1_replication (room name : List Char) (i qty psPer : Nat) (tp mp : ℚ)
    (ct : List Char) (uh : Nat) (text : List Char) :
    ((mkDevices room name i qty psPer tp mp ct uh).length = qty
      ∧ ∀ d ∈ mkDevices room name i qty psPer tp mp ct uh,
          d.name = name ∧ d.room = room ∧ d.psuCount = psPer ∧ d.typicalPower = tp
            ∧ d.powerRatingPerDevice = mp ∧ d.connectionType = ct ∧ d.uHeight = uh
            ∧ ∃ k, k < qty ∧ d.id = mkId room name i k)
    ∧ (outIds (parseCSV text)).Nodup := by
  refine ⟨⟨by simp [mkDevices], ?_⟩, parseCSV_ids_nodup text⟩
  intro d hd
  obtain ⟨k, hk, rfl⟩ := List.mem_map.mp hd
  exact ⟨rfl, rfl, rfl, rfl, rfl, rfl, rfl, k, List.mem_range.mp hk, rfl⟩

/-- Witness for C1 at a concrete row and a concrete import. -/
theorem c1_replication_witness :
    (mkDevices ("A".data) ("B".data) 1 2 1 0 0 ("C13".data) 1).length = 2
    ∧ (⟨mkId ("A".data) ("B".data) 1 0, "B".data, "A".data, 1, 0, 0, "C13".data, 1,
        none, 0⟩ : Device).name = "B".data
    ∧ (outIds (parseCSV ("a\nb".data))).Nodup :=
  ⟨(c1_replication ("A".data) ("B".data) 1 2 1 0 0 ("C13".data) 1 ("a\nb".data)).1.1,
   ((c1_replication ("A".data) ("B".data) 1 2 1 0 0 ("C13".data) 1 ("a\nb".data)).1.2
      _ (by decide)).1,
   (c1_replication ("A".data) ("B".data) 1 2 1 0 0 ("C13".data) 1 ("a\nb".data)).2⟩

/-- C2: a device of height h is placed at the cursor exactly when
`cursor - h + 1 ≥ 1`, after which the cursor drops by h; a device that does
not fit is left unplaced with the cursor unchanged; with capacity 6 the
heights [2,1,3] receive positions 6, 4 and 3. -/
theorem c2_stacking (cursor : Int) (d : Device) (ds : List Device) :
    (1 ≤ cursor - (d.uHeight : Int) + 1 →
      stackLoop cursor (d :: ds) =
        { d with uPosition := some cursor, psuConnections := d.psuCount }
          :: stackLoop (cursor - (d.uHeight : Int)) ds)
    ∧ (cursor - (d.uHeight : Int) + 1 < 1 →
      stackLoop cursor (d :: ds) =
        { d with uPosition := none, psuConnections := 0 } :: stackLoop cursor ds)
    ∧ (stackLoop 6 [sampleDevice 2, sampleDevice 1, sampleDevice 3]).map
        (fun x => x.uPosition) = [some 6, some 4, some 3] := by
  refine ⟨?_, ?_, by decide⟩
  · intro hfit
    rw [stackLoop, if_pos hfit]
  · intro hnofit
    rw [stackLoop, if_neg (by omega)]

/-- Witness for C2: one placed and one unplaced concrete device. -/
theorem c2_stacking_witness :
    stackLoop 5 [sampleDevice 2] = [(⟨[], [], [], 1, 0, 0, [], 2, some 5, 1⟩ : Device)]
    ∧ stackLoop 2 [sampleDevice 3] = [(⟨[], [], [], 1, 0, 0, [], 3, none, 0⟩ : Device)] :=
  ⟨((c2_stacking 5 (sampleDevice 2) []).1 (by decide)).trans (by decide),
   ((c2_stacking 2 (sampleDevice 3) []).2.1 (by decide)).trans (by decide)⟩

/-- C3: max power is derived in strict priority order: a positive parsed
per-device value is used verbatim; otherwise a positive parsed total is
divided by the quantity; otherwise any parsed PSU rating (including 0 and
negatives) is multiplied by the per-unit PSU count; otherwise 0. -/
theorem c3_power_priority (rawMax rawTotal rawRating : Option ℚ) (qty psPer : Nat) :
    (∀ v, rawMax = some v → 0 < v →
      rowMaxPower rawMax rawTotal rawRating qty psPer = v)
    ∧ (isPos rawMax = false → ∀ w, rawTotal = some w → 0 < w →
      rowMaxPower rawMax rawTotal rawRating qty psPer = w / (qty : ℚ))
    ∧ (isPos rawMax = false → isPos rawTotal = false → ∀ r, rawRating = some r →
      rowMaxPower rawMax rawTotal rawRating qty psPer = r * (psPer : ℚ))
    ∧ (isPos rawMax = false → isPos rawTotal = false → rawRating = none →
      rowMaxPower rawMax rawTotal rawRating qty psPer = 0) := by
  refine ⟨?_, ?_, ?_, ?_⟩
  · intro v hv hpos
    subst hv
    simp [rowMaxPower, isPos, hpos]
  · intro hm w hw hpos
    subst hw
    simp only [rowMaxPower]
    rw [hm]
    simp [isPos, hpos]
  · intro hm ht r hr
    subst hr
    simp only [rowMaxPower]
    rw [hm, ht]
    simp
  · intro hm ht hr
    subst hr
    simp only [rowMaxPower]
    rw [hm, ht]
    simp

/-- Witness for C3: the per-device value wins over a positive total, and the
total is divided by the quantity when the per-device value is absent. -/
theorem c3_power_priority_witness :
    rowMaxPower (some 5) (some 7) (some 2) 2 3 = 5
    ∧ rowMaxPower none (some 7) (some 2) 2 3 = 7 / (2 : ℚ) :=
  ⟨(c3_power_priority (some 5) (some 7) (some 2) 2 3).1 5 rfl (by norm_num),
   (c3_power_priority none (some 7) (some 2) 2 3).2.1 rfl 7 rfl (by norm_num)⟩

theorem parseLineAux_rawFields : ∀ (cs : List Char) (inQ : Bool) (cellR : List Char),
    parseLineAux cs inQ (cellR.filter (fun c => c ≠ '\"')) =
      (rawFieldsAux cs inQ cellR).map (fun f => trimL (f.filter (fun c => c ≠ '\"'))) := by
  intro cs
  induction cs with
  | nil => intro inQ cellR; simp [parseLineAux, rawFieldsAux]
  | cons c cs ih =>
    intro inQ cellR
    by_cases hq : c = '\"'
    · subst hq
      simp only [parseLineAux, rawFieldsAux, if_pos rfl]
      have hf : (cellR ++ ['\"']).filter (fun c => c ≠ '\"')
          = cellR.filter (fun c => c ≠ '\"') := by
        simp [List.filter_append]
      have hr := ih (!inQ) (cellR ++ ['\"'])
      rw [hf] at hr
      exact hr
    · by_cases hc : c = ',' ∧ inQ = false
      · simp only [parseLineAux, rawFieldsAux, if_neg hq, if_pos hc, List.map_cons]
        have h0 := ih inQ []
        simp only [List.filter_nil] at h0
        rw [h0]
      · simp only [parseLineAux, rawFieldsAux, if_neg hq, if_neg hc]
        have hf : (cellR ++ [c]).filter (fun x => x ≠ '\"')
            = cellR.filter (fun x => x ≠ '\"') ++ [c] := by
          simp [List.filter_append, hq]
        have hr := ih inQ (cellR ++ [c])
        rw [hf] at hr
        exact hr

/-- C5 counterexample: the claim's cleaning (trim, then strip exactly one
enclosing quote pair, nothing else altered) disagrees with the code on the
input `a"b`, whose interior quote the code removes. -/
theorem c5_field_cleaning_counterexample :
    parseLine ('a' :: '\"' :: 'b' :: []) ≠ claimFields ('a' :: '\"' :: 'b' :: []) := by
  decide

/-- C5 amended: splitting toggles the in-quotes state on each quote character
and delimiters inside quotes do not split; each field equals its raw segment
with every quote character removed and then trimmed of surrounding whitespace;
no other characters are altered or removed. -/
theorem c5_field_cleaning_amended (text : List Char) :
    parseLine text = (rawFields text).map (fun f => trimL (f.filter (fun c => c ≠ '\"'))) := by
  have h := parseLineAux_rawFields text false []
  simpa [parseLine, rawFields] using h

/-- C7: every output room's total power is the sum of the per-unit max power
over all its devices, placed and unplaced alike. -/
theorem c7_total_power (text : List Char) (g : RackGroup) (hg : g ∈ parseCSV text) :
    g.totalPower = (g.devices.map (fun d => d.powerRatingPerDevice)).sum := by
  rw [parseCSV] at hg
  by_cases hlen : (linesOf text).length < 2
  · rw [if_pos hlen] at hg
    simp at hg
  · rw [if_neg hlen] at hg
    obtain ⟨e, _, rfl⟩ := List.mem_map.mp hg
    rfl

/-- Witness for C7 at a concrete import. -/
theorem c7_total_power_witness :
    ((parseCSV ("a\nb".data)).getD 0 ⟨[], [], 0⟩).totalPower
      = (((parseCSV ("a\nb".data)).getD 0 ⟨[], [], 0⟩).devices.map
          (fun d => d.powerRatingPerDevice)).sum :=
  c7_total_power ("a\nb".data) _ (by with_unfolding_all decide)

/-- C8: an input whose trimmed text holds fewer than two newline-separated
lines (empty, whitespace-only, or a lone header) yields the empty output. -/
theorem c8_short_input (text : List Char) (h : (linesOf text).length < 2) :
    parseCSV text = [] := by
  rw [parseCSV, if_pos h]

/-- Witness for C8: empty, whitespace-only and header-only inputs. -/
theorem c8_short_input_witness :
    parseCSV [] = [] ∧ parseCSV ("   ".data) = []
      ∧ parseCSV ("Room,Device\n".data) = [] :=
  ⟨c8_short_input [] (by decide), c8_short_input ("   ".data) (by decide),
   c8_short_input ("Room,Device\n".data) (by decide)⟩

/-- C10: splitting a line always yields at least one field; hence the skip rule
discards a row exactly when it has a single field and the header has at least
three; with a two-field header even a blank data line produces a record with
the sentinel name and the fill-down room. -/
theorem c10_skip_rule :
    (∀ (text : List Char) (inQ : Bool) (cell : List Char),
      1 ≤ (parseLineAux text inQ cell).length)
    ∧ (∀ hdrLen rowLen : Nat, 1 ≤ rowLen →
      (skipRow hdrLen rowLen = true ↔ rowLen = 1 ∧ 3 ≤ hdrLen))
    ∧ (parseCSV ("x,y\n\nq".data)).map (fun g => g.devices.map (fun d => (d.name, d.room)))
      = [[("Unknown Device".data, "Default Room".data),
          ("Unknown Device".data, "Default Room".data)]] := by
  refine ⟨?_, ?_, by decide⟩
  · intro text
    induction text with
    | nil => intro inQ cell; simp [parseLineAux]
    | cons c cs ih =>
      intro inQ cell
      simp only [parseLineAux]
      by_cases hq : c = '\"'
      · rw [if_pos hq]
        exact ih _ _
      · rw [if_neg hq]
        by_cases hc : c = ',' ∧ inQ = false
        · rw [if_pos hc]
          simp
        · rw [if_neg hc]
          exact ih _ _
  · intro hdrLen rowLen h1
    simp only [skipRow, Bool.and_eq_true, decide_eq_true_eq]
    omega

/-- Witness for C10 at a concrete line and concrete field counts. -/
theorem c10_skip_rule_witness :
    1 ≤ (parseLineAux ("a,b".data) false []).length
    ∧ (skipRow 5 1 = true ↔ 1 = 1 ∧ 3 ≤ 5) :=
  ⟨c10_skip_rule.1 ("a,b".data) false [], c10_skip_rule.2.1 5 1 (by decide)⟩

/-- C4 counterexample: on the input `PSU Rating\n-100` the importer emits a
record whose derived max power and typical power are both negative, so the
non-negativity claim fails for arbitrary inputs. -/
theorem c4_power_nonneg_counterexample :
    (((parseCSV ("PSU Rating\n-100".data)).getD 0 ⟨[], [], 0⟩).devices.getD 0
        (⟨[], [], [], 1, 0, 0, [], 1, none, 0⟩ : Device)).powerRatingPerDevice < 0
    ∧ (((parseCSV ("PSU Rating\n-100".data)).getD 0 ⟨[], [], 0⟩).devices.getD 0
        (⟨[], [], [], 1, 0, 0, [], 1, none, 0⟩ : Device)).typicalPower < 0 := by
  with_unfolding_all decide

/-- C4 amended: the derived per-unit max power and typical power are
non-negative provided the PSU-rating cell, when it parses, is non-negative,
and the typical-power cell, when it parses, is non-negative (the per-device
and total columns are already guarded by positivity checks). -/
theorem c4_power_nonneg_amended (rawMax rawTotal rawRating rawTyp : Option ℚ)
    (qty psPer : Nat)
    (hr : ∀ r, rawRating = some r → 0 ≤ r)
    (ht : ∀ v, rawTyp = some v → 0 ≤ v) :
    0 ≤ rowMaxPower rawMax rawTotal rawRating qty psPer
    ∧ 0 ≤ rowTypical rawTyp (rowMaxPower rawMax rawTotal rawRating qty psPer) := by
  have hmp : 0 ≤ rowMaxPower rawMax rawTotal rawRating qty psPer := by
    simp only [rowMaxPower]
    by_cases h1 : isPos rawMax = true
    · rw [if_pos h1]
      cases rawMax with
      | none => simp [isPos] at h1
      | some v =>
        simp only [isPos, decide_eq_true_eq] at h1
        simpa using le_of_lt h1
    · rw [if_neg h1]
      by_cases h2 : isPos rawTotal = true
      · rw [if_pos h2]
        cases rawTotal with
        | none => simp [isPos] at h2
        | some w =>
          simp only [isPos, decide_eq_true_eq] at h2
          simp only [Option.getD_some]
          exact div_nonneg (le_of_lt h2) (Nat.cast_nonneg qty)
      · rw [if_neg h2]
        cases rawRating with
        | none => exact le_refl 0
        | some r => exact mul_nonneg (hr r rfl) (Nat.cast_nonneg psPer)
  refine ⟨hmp, ?_⟩
  cases rawTyp with
  | some v => exact ht v rfl
  | none => exact mul_nonneg hmp (by norm_num)

/-- Witness for the amended C4 at concrete parse outcomes. -/
theorem c4_power_nonneg_witness :
    0 ≤ rowMaxPower none none (some 2) 1 1
    ∧ 0 ≤ rowTypical none (rowMaxPower none none (some 2) 1 1) :=
  c4_power_nonneg_amended none none (some 2) none 1 1
    (fun r h => by injection h with h1; rw [← h1]; norm_num)
    (fun v h => Option.noConfusion h)

theorem rowRoom_some (j : Nat) (row : List (List Char)) (last : List Char) :
    rowRoom (some j) row last =
      (if cleanCell j row ≠ [] then (cleanCell j row, cleanCell j row)
        else (last, last)) := by
  simp only [rowRoom, cleanCell, ne_eq]
  by_cases h : trimL (stripQuotes (row.getD j [])) = []
  · rw [if_neg (fun hc => hc.2 h), if_neg (not_not_intro h)]
  · have hne : row.getD j [] ≠ [] := fun h0 => h (by rw [h0]; rfl)
    rw [if_pos ⟨hne, h⟩, if_pos h]

theorem roomTrace_getD (j : Nat) :
    ∀ (rows : List (List (List Char))) (n : Nat) (last : List Char),
      n < rows.length →
      (roomTrace (some j) last rows).getD n [] =
        lastFilled last ((rows.take (n + 1)).map (cleanCell j)) := by
  intro rows
  induction rows with
  | nil => intro n last h; simp at h
  | cons row rest ih =>
    intro n last h
    cases n with
    | zero =>
      by_cases hc : cleanCell j row = []
      · simp [roomTrace, rowRoom_some, hc, lastFilled]
      · simp [roomTrace, rowRoom_some, hc, lastFilled]
    | succ n =>
      have hlt : n < rest.length := by simpa using h
      by_cases hc : cleanCell j row = []
      · simp only [roomTrace, rowRoom_some, hc, ne_eq, not_true_eq_false, if_false,
          List.getD_cons_succ, List.take_succ_cons, List.map_cons, lastFilled, if_pos hc]
        exact ih n last hlt
      · simp only [roomTrace, rowRoom_some, hc, ne_eq, not_false_eq_true, if_true,
          List.getD_cons_succ, List.take_succ_cons, List.map_cons, lastFilled, if_neg hc]
        exact ih n (cleanCell j row) hlt

/-- C6: with no resolved room column every processed row gets the default
room; with a resolved room column, the room of the n-th processed row is the
nearest non-empty cleaned cell at or before it, and the default label when
every cell so far is empty. -/
theorem c6_fill_down (j : Nat) (rows : List (List (List Char))) (n : Nat) :
    roomTrace none ("Default Room".data) rows
        = List.replicate rows.length ("Default Room".data)
    ∧ (n < rows.length →
      (roomTrace (some j) ("Default Room".data) rows).getD n [] =
        lastFilled ("Default Room".data) ((rows.take (n + 1)).map (cleanCell j))) := by
  constructor
  · induction rows with
    | nil => rfl
    | cons row rest ih => simp [roomTrace, rowRoom, ih, List.replicate_succ]
  · intro h
    exact roomTrace_getD j rows n _ h

/-- Witness for C6 at a concrete three-row trace with an empty, a filled and
again an empty cell. -/
theorem c6_fill_down_witness :
    (roomTrace (some 0) ("Default Room".data) [[[]], [['a']], [[]]]).getD 2 []
      = lastFilled ("Default Room".data)
          (([[[]], [['a']], [[]]].take 3).map (cleanCell 0)) :=
  (c6_fill_down 0 [[[]], [['a']], [[]]] 2).2 (by decide)

theorem pushDevice_keys (m : List (List Char × List Device)) (r : List Char) (d : Device) :
    (pushDevice m r d).map Prod.fst = addIfNew (m.map Prod.fst) r := by
  induction m with
  | nil => simp [pushDevice, addIfNew]
  | cons e rest ih =>
    obtain ⟨key, ds⟩ := e
    by_cases hk : key = r
    · subst hk
      simp [pushDevice, addIfNew]
    · simp only [pushDevice, if_neg hk, List.map_cons, ih]
      simp only [addIfNew, List.mem_cons]
      by_cases hr : r ∈ List.map Prod.fst rest
      · simp [hr, Ne.symm hk]
      · simp [hr, Ne.symm hk]

theorem pushAll_keys_mem : ∀ (ds : List Device) (m : List (List Char × List Device))
    (r : List Char), r ∈ m.map Prod.fst →
    (pushAll m r ds).map Prod.fst = m.map Prod.fst := by
  intro ds
  induction ds with
  | nil => intro m r _; rfl
  | cons d ds ih =>
    intro m r hr
    have h1 : (pushDevice m r d).map Prod.fst = m.map Prod.fst := by
      rw [pushDevice_keys, addIfNew, if_pos hr]
    have h2 := ih (pushDevice m r d) r (by rw [h1]; exact hr)
    rw [show pushAll m r (d :: ds) = pushAll (pushDevice m r d) r ds from rfl, h2, h1]

theorem pushAll_keys_ne (ds : List Device) (hne : ds ≠ [])
    (m : List (List Char × List Device)) (r : List Char) :
    (pushAll m r ds).map Prod.fst = addIfNew (m.map Prod.fst) r := by
  cases ds with
  | nil => exact absurd rfl hne
  | cons d ds =>
    have h1 : (pushDevice m r d).map Prod.fst = addIfNew (m.map Prod.fst) r :=
      pushDevice_keys m r d
    have hmem : r ∈ (pushDevice m r d).map Prod.fst := by
      rw [h1, addIfNew]
      by_cases hr : r ∈ m.map Prod.fst
      · rw [if_pos hr]; exact hr
      · rw [if_neg hr]; simp
    rw [show pushAll m r (d :: ds) = pushAll (pushDevice m r d) r ds from rfl,
      pushAll_keys_mem ds _ r hmem, h1]

theorem mkDevices_ne_nil (room name : List Char) (i qty psPer : Nat) (tp mp : ℚ)
    (ct : List Char) (uh : Nat) (hq : 1 ≤ qty) :
    mkDevices room name i qty psPer tp mp ct uh ≠ [] := by
  intro h0
  have := congrArg List.length h0
  simp [mkDevices] at this
  omega

theorem buildRows_keys (hdrLen : Nat) (cols : Cols) :
    ∀ (ls : List (List Char)) (i : Nat) (last : List Char)
      (m : List (List Char × List Device)),
      (buildRows hdrLen cols i last m ls).map Prod.fst =
        (roomTrace cols.idxRoom last (processedRows hdrLen ls)).foldl addIfNew
          (m.map Prod.fst) := by
  intro ls
  induction ls with
  | nil => intro i last m; simp [buildRows, processedRows, roomTrace]
  | cons line rest ih =>
    intro i last m
    have hpr : processedRows hdrLen (line :: rest)
        = if skipRow hdrLen (parseLine line).length then processedRows hdrLen rest
          else parseLine line :: processedRows hdrLen rest := by
      by_cases hs : skipRow hdrLen (parseLine line).length = true <;>
        simp [processedRows, hs]
    simp only [buildRows]
    by_cases hs : skipRow hdrLen (parseLine line).length = true
    · rw [if_pos hs, hpr, if_pos hs]
      exact ih (i + 1) last m
    · rw [if_neg hs, hpr, if_neg hs, roomTrace, List.foldl_cons]
      rw [ih (i + 1) _ _]
      rw [pushAll_keys_ne _ (mkDevices_ne_nil _ _ _ _ _ _ _ _ _
        (rowQty_pos cols.idxQty (parseLine line)))]

/-- C9: the output rooms appear in first-seen order: the sequence of emitted
room ids equals the first-occurrence deduplication of the rooms assigned to
the processed rows in input order. -/
theorem c9_room_order (text : List Char) :
    (parseCSV text).map (fun g => g.roomId) =
      firstSeen (roomTrace (resolveCols (headersOf text)).idxRoom ("Default Room".data)
        (processedRows (headersOf text).length ((linesOf text).drop 1))) := by
  rw [parseCSV]
  by_cases hlen : (linesOf text).length < 2
  · rw [if_pos hlen]
    have hdrop : (linesOf text).drop 1 = [] := by
      rw [List.drop_eq_nil_iff]
      omega
    rw [hdrop]
    simp [processedRows, roomTrace, firstSeen]
  · rw [if_neg hlen]
    rw [List.map_map]
    have hcomp : ((fun g => g.roomId) ∘ allocRoom)
        = (Prod.fst : List Char × List Device → List Char) :=
      funext fun e => rfl
    rw [hcomp, buildRows_keys]
    rfl

end RackPower
